import Mathlib

/-!
Verification of the THC staking program (`programs/thc-staking/src/lib.rs`).

The program is an Anchor (Solana) program.  We embed it shallowly:

* Account pubkeys are modelled as `Nat` (`Pubkey`): the claims only need
  identity comparisons between keys.
* `u64` values are `Nat`; Rust `checked_add`/`checked_sub` on `u64` become
  explicit range-checked operations returning `Option Nat` (bound `2^64 - 1`).
  `i64` timestamps are `Int` with explicit `i64` range checks where the
  source uses `checked_sub`.
* An instruction is a state transition `ProgramState → Except StepError
  (ProgramState × List TransferReq)`.  Solana transactions are atomic: a
  failed instruction leaves no observable state change, so an `Except.error`
  result carries no state and no transfers.  SPL token balances live in the
  external token program (out of scope per the account model); a CPI
  `token::transfer` is recorded as a `TransferReq` in the output.
* Anchor account-constraint failures (seeds/`init`/field constraints checked
  before the handler body runs) are `StepError.constraint`; `require!`
  failures are `StepError.program e` with the own `ErrorCode` of the program;
  a panicking `unwrap()` on checked arithmetic is `StepError.arithAbort`.
* The per-depositor `StakeAccount` PDA is derived from seeds
  `[b"stake_account", owner, mint]`, so the record store is an association
  list keyed by the owner pubkey; `init` on `stake` fails if the key is
  present, and `close = owner` on `unstake` removes the entry.
-/

abbrev Pubkey := Nat

def u64Max : Nat := 2 ^ 64 - 1

def i64Min : Int := -(2 ^ 63)

def i64Max : Int := 2 ^ 63 - 1

/-- Rust `u64::checked_add`. -/
def checkedAddU64 (a b : Nat) : Option Nat :=
  if a + b ≤ u64Max then some (a + b) else none

/-- Rust `u64::checked_sub`. -/
def checkedSubU64 (a b : Nat) : Option Nat :=
  if b ≤ a then some (a - b) else none

/-- Rust `i64::checked_sub`. -/
def checkedSubI64 (a b : Int) : Option Int :=
  if i64Min ≤ a - b ∧ a - b ≤ i64Max then some (a - b) else none

/-- Source function `calculate_apy`: annual rate for a lock period in days.
The source takes a `u16`; the guards only involve the thresholds 365/180/90,
so we state it on `Nat`.  Note the source returns percent values
(15, 12, 8, 5), not basis points, and `calculate_rewards` divides by 100
accordingly. -/
def calculate_apy (lock_period_days : Nat) : Nat :=
  if 365 ≤ lock_period_days then 15
  else if 180 ≤ lock_period_days then 12
  else if 90 ≤ lock_period_days then 8
  else 5

/-- Source function `calculate_rewards`.

The source computes `time_diff = current_time.checked_sub(start_time)
.unwrap()` (panic = `none` here), returns `Ok(0)` for `time_diff <= 0`, and
otherwise evaluates `(amount as f64 * (apy as f64 / 100.0) * (time_diff as
f64 / (365.0 * 86400.0))) as u64`, then `rewards.checked_sub(already_claimed)
.unwrap_or(0)`.

We model the double-precision intermediate by its exact rational value,
truncated: `amount * apy * time_diff / (100 * 365 * 86400)` in `Nat`
division, with the Rust `as u64` saturation of the cast rendered as `min _
u64Max`.  The double-precision evaluation agrees with this exact value
whenever the intermediate products are exactly representable; at every
concrete input appearing in a theorem below the double-precision evaluation
produces the same integer result as this exact model (at the counterexample
inputs every intermediate double is even exact), so the model is faithful at
those points. -/
def calculate_rewards (amount apy : Nat) (start_time current_time : Int)
    (already_claimed : Nat) : Option Nat :=
  match checkedSubI64 current_time start_time with
  | none => none
  | some time_diff =>
    if time_diff ≤ 0 then some 0
    else
      let rewards := min ((amount * apy * time_diff.toNat) / (100 * (365 * 86400))) u64Max
      some ((checkedSubU64 rewards already_claimed).getD 0)

/-- The `StakingAuthority` account.  The source also stores `validator`,
`token_mint`, `rewards_pool` and PDA `bumps`; these are constants fixed at
`initialize` and never consulted by the claims, so they are omitted. -/
structure StakingAuthority where
  authority : Pubkey
  total_staked : Nat
  staker_count : Nat
deriving DecidableEq

/-- The per-depositor `StakeAccount`.  The source also stores
`stake_authority`, `token_account` (constant references) and the PDA `bump`;
omitted. -/
structure StakeAccount where
  owner : Pubkey
  deposit_amount : Nat
  start_time : Int
  unlock_time : Int
  apy : Nat
  rewards_claimed : Nat
  last_claimed_time : Int
  is_active : Bool
deriving DecidableEq

/-- Token accounts a CPI transfer can touch. -/
inductive AccountRef
  | userToken (owner : Pubkey)
  | stakingVault
  | rewardsPool
deriving DecidableEq

/-- A `token::transfer` CPI request issued to the external token program. -/
structure TransferReq where
  src : AccountRef
  dst : AccountRef
  amount : Nat
deriving DecidableEq

/-- The `ErrorCode` enum of the program. -/
inductive ErrorCode
  | InvalidAmount
  | StakingPeriodNotEnded
  | NoRewardsAvailable
  | InactiveStake
deriving DecidableEq

/-- How an instruction can fail: a `require!` with a program `ErrorCode`, an
Anchor account-constraint violation, or a panicking `unwrap()` on checked
arithmetic.  All three abort the transaction with no state change. -/
inductive StepError
  | program (e : ErrorCode)
  | constraint
  | arithAbort
deriving DecidableEq

/-- The on-chain state the program owns: the singleton authority plus the
stake records, as an association list keyed by the owner pubkey (the PDA
seed). -/
structure ProgramState where
  auth : StakingAuthority
  records : List (Pubkey × StakeAccount)
deriving DecidableEq

/-- Look up the stake-record PDA of the caller. -/
def lookupRecord (recs : List (Pubkey × StakeAccount)) (key : Pubkey) :
    Option StakeAccount :=
  (recs.find? (fun p => p.1 == key)).map (fun p => p.2)

/-- Source instruction `initialize` creates the `StakingAuthority` singleton with zeroed
aggregates. -/
def initState (admin : Pubkey) : ProgramState :=
  { auth := { authority := admin, total_staked := 0, staker_count := 0 }
    records := [] }

/-- The `stake` instruction.  Account validation first (`init` of the
`stake_account` PDA of the caller fails if it already exists; the token-balance
constraint lives in the external token program).  Then the handler:
`require!(amount > 0)`, build the record, request the deposit transfer, and
update both aggregate counters with `checked_add(..).unwrap()`. -/
def stake (st : ProgramState) (caller : Pubkey) (amount lock_period_days : Nat)
    (now : Int) : Except StepError (ProgramState × List TransferReq) :=
  match lookupRecord st.records caller with
  | some _ => .error .constraint
  | none =>
    if 0 < amount then
      let apy := calculate_apy lock_period_days
      let unlock_timestamp := now + (lock_period_days : Int) * 86400
      let sa : StakeAccount :=
        { owner := caller
          deposit_amount := amount
          start_time := now
          unlock_time := unlock_timestamp
          apy := apy
          rewards_claimed := 0
          last_claimed_time := now
          is_active := true }
      match checkedAddU64 st.auth.total_staked amount,
            checkedAddU64 st.auth.staker_count 1 with
      | some ts, some sc =>
        .ok ({ auth := { st.auth with total_staked := ts, staker_count := sc }
               records := st.records ++ [(caller, sa)] },
             [⟨.userToken caller, .stakingVault, amount⟩])
      | _, _ => .error .arithAbort
    else .error (.program .InvalidAmount)

/-- The `unstake` instruction.  Account validation: the PDA of the caller must
exist, its `owner` field must equal the caller and `is_active` must be true.
Handler: the time gate (`now ≥ unlock_time` or caller is the admin
authority), rewards via `calculate_rewards(deposit, apy, start_time, now,
rewards_claimed)`, principal transfer, rewards transfer if positive, both
counters decremented with `checked_sub(..).unwrap()`, record deactivated and
its account closed (removed). -/
def unstake (st : ProgramState) (caller : Pubkey) (now : Int) :
    Except StepError (ProgramState × List TransferReq) :=
  match st.records.find? (fun p => p.1 == caller) with
  | none => .error .constraint
  | some (_, sa) =>
    if sa.owner = caller ∧ sa.is_active = true then
      if sa.unlock_time ≤ now ∨ st.auth.authority = caller then
        match calculate_rewards sa.deposit_amount sa.apy sa.start_time now
            sa.rewards_claimed with
        | none => .error .arithAbort
        | some rewards =>
          match checkedSubU64 st.auth.total_staked sa.deposit_amount,
                checkedSubU64 st.auth.staker_count 1 with
          | some ts, some sc =>
            .ok ({ auth := { st.auth with total_staked := ts, staker_count := sc }
                   records := st.records.filter (fun p => !(p.1 == caller)) },
                 ⟨.stakingVault, .userToken caller, sa.deposit_amount⟩ ::
                   (if 0 < rewards then
                     [⟨.rewardsPool, .userToken caller, rewards⟩] else []))
          | _, _ => .error .arithAbort
      else .error (.program .StakingPeriodNotEnded)
    else .error .constraint

/-- The `claim_rewards` instruction.  Account validation: the PDA of the caller
must exist and its `owner` field must equal the caller (`is_active` is NOT an
account constraint here; the handler checks it with `require!(..,
InactiveStake)`).  Handler: rewards via `calculate_rewards(deposit, apy,
last_claimed_time, now, 0)`, `require!(rewards > 0, NoRewardsAvailable)`,
rewards transfer, `rewards_claimed` advanced with `checked_add(..).unwrap()`
and `last_claimed_time` set to `now`. -/
def claim_rewards (st : ProgramState) (caller : Pubkey) (now : Int) :
    Except StepError (ProgramState × List TransferReq) :=
  match st.records.find? (fun p => p.1 == caller) with
  | none => .error .constraint
  | some (_, sa) =>
    if sa.owner = caller then
      if sa.is_active = true then
        match calculate_rewards sa.deposit_amount sa.apy sa.last_claimed_time
            now 0 with
        | none => .error .arithAbort
        | some rewards =>
          if 0 < rewards then
            match checkedAddU64 sa.rewards_claimed rewards with
            | none => .error .arithAbort
            | some rc =>
              .ok ({ st with
                      records := st.records.map (fun p =>
                        if p.1 = caller then
                          (p.1, { p.2 with rewards_claimed := rc,
                                           last_claimed_time := now })
                        else p) },
                   [⟨.rewardsPool, .userToken caller, rewards⟩])
          else .error (.program .NoRewardsAvailable)
      else .error (.program .InactiveStake)
    else .error .constraint

/-- Operations quantified over in the conservation claim: the two
aggregate-mutating instructions. -/
inductive Op
  | stakeOp (caller : Pubkey) (amount lock_period_days : Nat) (now : Int)
  | unstakeOp (caller : Pubkey) (now : Int)
deriving DecidableEq

def applyOp (st : ProgramState) : Op → Except StepError (ProgramState × List TransferReq)
  | .stakeOp caller amount days now => stake st caller amount days now
  | .unstakeOp caller now => unstake st caller now

/-- Run a sequence of operations; `none` as soon as one fails. -/
def runOps (st : ProgramState) : List Op → Option ProgramState
  | [] => some st
  | op :: rest =>
    match applyOp st op with
    | .ok (st', _) => runOps st' rest
    | .error _ => none

/-- Sum of `deposit_amount` over records with `is_active = true`. -/
def activeSum : List (Pubkey × StakeAccount) → Nat
  | [] => 0
  | p :: l => (if p.2.is_active then p.2.deposit_amount else 0) + activeSum l

/-- Number of records with `is_active = true`. -/
def activeCount : List (Pubkey × StakeAccount) → Nat
  | [] => 0
  | p :: l => (if p.2.is_active then 1 else 0) + activeCount l

/-- The conservation invariant of the spec. -/
def conservation (st : ProgramState) : Prop :=
  st.auth.total_staked = activeSum st.records ∧
  st.auth.staker_count = activeCount st.records

/-- PDA addressing gives at most one stake record per owner key. -/
def keysNodup (st : ProgramState) : Prop :=
  (st.records.map (fun p => p.1)).Nodup

def StakingInv (st : ProgramState) : Prop := keysNodup st ∧ conservation st

instance (st : ProgramState) : Decidable (conservation st) := by
  unfold conservation; infer_instance

instance (st : ProgramState) : Decidable (keysNodup st) := by
  unfold keysNodup; infer_instance

instance (st : ProgramState) : Decidable (StakingInv st) := by
  unfold StakingInv; infer_instance

/-- Spec-side accrual formula, written from the words of the claim: `owed =
floor(principal * rate/10000 * elapsedSeconds / secondsPerYear)` with
`secondsPerYear = 365*86400`, and 0 for `elapsedSeconds ≤ 0`. -/
def accrueSpec (p r : Nat) (e : Int) : Nat :=
  if e ≤ 0 then 0 else (p * r * e.toNat) / (10000 * (365 * 86400))

/-- The accrual formula the source actually implements (rate in percent,
divisor 100), with the `as u64` saturation. -/
def accrueAmended (p r : Nat) (e : Int) : Nat :=
  if e ≤ 0 then 0 else min ((p * r * e.toNat) / (100 * (365 * 86400))) u64Max

/-! ## Helper lemmas -/

theorem checkedAddU64_some {a b c : Nat} (h : checkedAddU64 a b = some c) :
    c = a + b ∧ a + b ≤ u64Max := by
  unfold checkedAddU64 at h
  split at h
  · exact ⟨(Option.some.injEq _ _ ▸ h).symm, by assumption⟩
  · exact Option.noConfusion h

theorem checkedSubU64_some {a b c : Nat} (h : checkedSubU64 a b = some c) :
    b ≤ a ∧ c = a - b := by
  unfold checkedSubU64 at h
  split at h
  · exact ⟨by assumption, (Option.some.injEq _ _ ▸ h).symm⟩
  · exact Option.noConfusion h

theorem lookupRecord_none {l : List (Pubkey × StakeAccount)} {c : Pubkey}
    (h : lookupRecord l c = none) : l.find? (fun p => p.1 == c) = none := by
  unfold lookupRecord at h
  exact Option.map_eq_none.mp h

theorem find?_keys_none {l : List (Pubkey × StakeAccount)} {c : Pubkey}
    (h : l.find? (fun p => p.1 == c) = none) : ∀ p ∈ l, p.1 ≠ c := by
  intro p hp hc
  have := List.find?_eq_none.mp h p hp
  simp [hc] at this

theorem find?_key_eq {l : List (Pubkey × StakeAccount)} {c : Pubkey}
    {q : Pubkey × StakeAccount} (h : l.find? (fun p => p.1 == c) = some q) :
    q.1 = c := by
  have := List.find?_some h
  simpa using this

theorem activeSum_append (l₁ l₂ : List (Pubkey × StakeAccount)) :
    activeSum (l₁ ++ l₂) = activeSum l₁ + activeSum l₂ := by
  induction l₁ with
  | nil => simp [activeSum]
  | cons p l ih => simp [activeSum, ih, Nat.add_assoc]

theorem activeCount_append (l₁ l₂ : List (Pubkey × StakeAccount)) :
    activeCount (l₁ ++ l₂) = activeCount l₁ + activeCount l₂ := by
  induction l₁ with
  | nil => simp [activeCount]
  | cons p l ih => simp [activeCount, ih, Nat.add_assoc]

theorem filter_no_key {l : List (Pubkey × StakeAccount)} {c : Pubkey}
    (h : ∀ p ∈ l, p.1 ≠ c) : l.filter (fun p => !(p.1 == c)) = l := by
  induction l with
  | nil => rfl
  | cons p l ih =>
    have hp : p.1 ≠ c := h p (List.mem_cons_self _ _)
    rw [List.filter_cons, if_pos (by simp [hp]),
      ih (fun q hq => h q (List.mem_cons_of_mem _ hq))]

theorem remove_found {l : List (Pubkey × StakeAccount)} {c : Pubkey}
    {q : Pubkey × StakeAccount}
    (hnd : (l.map (fun p => p.1)).Nodup)
    (hfind : l.find? (fun p => p.1 == c) = some q) :
    activeSum l = activeSum (l.filter (fun p => !(p.1 == c))) +
        (if q.2.is_active then q.2.deposit_amount else 0) ∧
    activeCount l = activeCount (l.filter (fun p => !(p.1 == c))) +
        (if q.2.is_active then 1 else 0) := by
  induction l with
  | nil => exact Option.noConfusion hfind
  | cons p l ih =>
    rw [List.map_cons, List.nodup_cons] at hnd
    by_cases hc : p.1 = c
    · rw [List.find?_cons_of_pos _ (by simp [hc])] at hfind
      have hq : q = p := (Option.some.injEq _ _ ▸ hfind).symm
      subst hq
      have htail : ∀ r ∈ l, r.1 ≠ c := by
        intro r hr hrc
        exact hnd.1 (hc ▸ hrc ▸ List.mem_map_of_mem (fun p => p.1) hr)
      rw [List.filter_cons, if_neg (by simp [hc]), filter_no_key htail]
      constructor
      · simp [activeSum, Nat.add_comm]
      · simp [activeCount, Nat.add_comm]
    · rw [List.find?_cons_of_neg _ (by simp [hc])] at hfind
      obtain ⟨ihs, ihc⟩ := ih hnd.2 hfind
      rw [List.filter_cons, if_pos (by simp [hc])]
      constructor
      · simp [activeSum, ihs, Nat.add_assoc]
      · simp [activeCount, ihc, Nat.add_assoc]

theorem keysNodup_filter {l : List (Pubkey × StakeAccount)} {c : Pubkey}
    (hnd : (l.map (fun p => p.1)).Nodup) :
    ((l.filter (fun p => !(p.1 == c))).map (fun p => p.1)).Nodup :=
  hnd.sublist ((List.filter_sublist l).map (fun p => p.1))

theorem keysNodup_append {l : List (Pubkey × StakeAccount)} {c : Pubkey}
    {sa : StakeAccount}
    (hnd : (l.map (fun p => p.1)).Nodup)
    (hnew : ∀ p ∈ l, p.1 ≠ c) :
    ((l ++ [(c, sa)]).map (fun p => p.1)).Nodup := by
  rw [List.map_append]
  rw [List.nodup_append]
  refine ⟨hnd, List.nodup_singleton _, ?_⟩
  intro a ha hb
  simp only [List.map_cons, List.map_nil, List.mem_singleton] at hb
  obtain ⟨p, hp, hpa⟩ := List.mem_map.mp ha
  exact hnew p hp (hpa.trans hb)

theorem calculate_rewards_isSome (a apy cl : Nat) (s c : Int)
    (h1 : i64Min ≤ c - s) (h2 : c - s ≤ i64Max) :
    ∃ r, calculate_rewards a apy s c cl = some r := by
  unfold calculate_rewards checkedSubI64
  rw [if_pos ⟨h1, h2⟩]
  by_cases hd : c - s ≤ 0
  · exact ⟨0, by simp [hd]⟩
  · refine ⟨(checkedSubU64
        (min (a * apy * (c - s).toNat / (100 * (365 * 86400))) u64Max) cl).getD 0, ?_⟩
    simp [hd]

theorem stake_ok_inv {st st' : ProgramState} {caller : Pubkey} {amount days : Nat}
    {now : Int} {tr : List TransferReq}
    (h : stake st caller amount days now = .ok (st', tr)) :
    lookupRecord st.records caller = none ∧ 0 < amount ∧
    st.auth.total_staked + amount ≤ u64Max ∧ st.auth.staker_count + 1 ≤ u64Max ∧
    st'.auth.authority = st.auth.authority ∧
    st'.auth.total_staked = st.auth.total_staked + amount ∧
    st'.auth.staker_count = st.auth.staker_count + 1 ∧
    st'.records = st.records ++ [(caller,
      { owner := caller, deposit_amount := amount, start_time := now,
        unlock_time := now + (days : Int) * 86400, apy := calculate_apy days,
        rewards_claimed := 0, last_claimed_time := now, is_active := true })] ∧
    tr = [⟨.userToken caller, .stakingVault, amount⟩] := by
  unfold stake at h
  split at h
  · exact Except.noConfusion h
  · next hfind =>
    split at h
    · next hpos =>
      split at h
      · next ts sc hts hsc =>
        obtain ⟨hts1, hts2⟩ := checkedAddU64_some hts
        obtain ⟨hsc1, hsc2⟩ := checkedAddU64_some hsc
        simp only [Except.ok.injEq, Prod.mk.injEq] at h
        obtain ⟨h1, h2⟩ := h
        subst h1
        subst h2
        subst hts1
        subst hsc1
        exact ⟨hfind, hpos, hts2, hsc2, rfl, rfl, rfl, rfl, rfl⟩
      · exact Except.noConfusion h
    · exact Except.noConfusion h

theorem unstake_ok_inv {st st' : ProgramState} {caller : Pubkey} {now : Int}
    {tr : List TransferReq}
    (h : unstake st caller now = .ok (st', tr)) :
    ∃ q r, st.records.find? (fun p => p.1 == caller) = some q ∧
      q.2.owner = caller ∧ q.2.is_active = true ∧
      (q.2.unlock_time ≤ now ∨ st.auth.authority = caller) ∧
      calculate_rewards q.2.deposit_amount q.2.apy q.2.start_time now
        q.2.rewards_claimed = some r ∧
      q.2.deposit_amount ≤ st.auth.total_staked ∧ 1 ≤ st.auth.staker_count ∧
      st'.auth.authority = st.auth.authority ∧
      st'.auth.total_staked = st.auth.total_staked - q.2.deposit_amount ∧
      st'.auth.staker_count = st.auth.staker_count - 1 ∧
      st'.records = st.records.filter (fun p => !(p.1 == caller)) ∧
      tr = ⟨.stakingVault, .userToken caller, q.2.deposit_amount⟩ ::
        (if 0 < r then [⟨.rewardsPool, .userToken caller, r⟩] else []) := by
  unfold unstake at h
  split at h
  · exact Except.noConfusion h
  · next k sa hfind =>
    split at h
    · next hoa =>
      split at h
      · next hgate =>
        split at h
        · exact Except.noConfusion h
        · next r hr =>
          split at h
          · next ts sc hts hsc =>
            obtain ⟨hts1, hts2⟩ := checkedSubU64_some hts
            obtain ⟨hsc1, hsc2⟩ := checkedSubU64_some hsc
            simp only [Except.ok.injEq, Prod.mk.injEq] at h
            obtain ⟨h1, h2⟩ := h
            subst h1
            subst h2
            subst hts2
            subst hsc2
            exact ⟨(k, sa), r, hfind, hoa.1, hoa.2, hgate, hr, hts1, hsc1,
              rfl, rfl, rfl, rfl, rfl⟩
          · exact Except.noConfusion h
      · exact Except.noConfusion h
    · exact Except.noConfusion h

theorem claim_ok_inv {st st' : ProgramState} {caller : Pubkey} {now : Int}
    {tr : List TransferReq}
    (h : claim_rewards st caller now = .ok (st', tr)) :
    ∃ q r rc, st.records.find? (fun p => p.1 == caller) = some q ∧
      q.2.owner = caller ∧ q.2.is_active = true ∧
      calculate_rewards q.2.deposit_amount q.2.apy q.2.last_claimed_time now 0 =
        some r ∧
      0 < r ∧ checkedAddU64 q.2.rewards_claimed r = some rc ∧
      st'.auth = st.auth ∧
      st'.records = st.records.map (fun p =>
        if p.1 = caller then
          (p.1, { p.2 with rewards_claimed := rc, last_claimed_time := now })
        else p) ∧
      tr = [⟨.rewardsPool, .userToken caller, r⟩] := by
  unfold claim_rewards at h
  split at h
  · exact Except.noConfusion h
  · next k sa hfind =>
    split at h
    · next hown =>
      split at h
      · next hact =>
        split at h
        · exact Except.noConfusion h
        · next r hr =>
          split at h
          · next hrpos =>
            split at h
            · exact Except.noConfusion h
            · next rc hrc =>
              simp only [Except.ok.injEq, Prod.mk.injEq] at h
              obtain ⟨h1, h2⟩ := h
              subst h1
              subst h2
              exact ⟨(k, sa), r, rc, hfind, hown, hact, hr, hrpos, hrc,
                rfl, rfl, rfl⟩
          · exact Except.noConfusion h
      · exact Except.noConfusion h
    · exact Except.noConfusion h

theorem stake_inv_preserved {st st' : ProgramState} {caller : Pubkey}
    {amount days : Nat} {now : Int} {tr : List TransferReq}
    (hInv : StakingInv st) (h : stake st caller amount days now = .ok (st', tr)) :
    StakingInv st' := by
  obtain ⟨hfind, hpos, _, _, _, hts, hsc, hrecs, _⟩ := stake_ok_inv h
  have hnokey := find?_keys_none (lookupRecord_none hfind)
  refine ⟨?_, ?_, ?_⟩
  · unfold keysNodup
    rw [hrecs]
    exact keysNodup_append hInv.1 hnokey
  · rw [hts, hrecs, activeSum_append, hInv.2.1]
    simp [activeSum]
  · rw [hsc, hrecs, activeCount_append, hInv.2.2]
    simp [activeCount]

theorem unstake_inv_preserved {st st' : ProgramState} {caller : Pubkey}
    {now : Int} {tr : List TransferReq}
    (hInv : StakingInv st) (h : unstake st caller now = .ok (st', tr)) :
    StakingInv st' := by
  obtain ⟨q, r, hfind, hown, hact, hgate, hr, hdep, hcnt, hauth, hts, hsc,
    hrecs, htr⟩ := unstake_ok_inv h
  obtain ⟨hsum, hcount⟩ := remove_found hInv.1 hfind
  rw [hact] at hsum hcount
  simp only [if_true] at hsum hcount
  refine ⟨?_, ?_, ?_⟩
  · unfold keysNodup
    rw [hrecs]
    exact keysNodup_filter hInv.1
  · rw [hts, hrecs, hInv.2.1]
    omega
  · rw [hsc, hrecs, hInv.2.2]
    omega

theorem applyOp_inv {st st' : ProgramState} {op : Op} {tr : List TransferReq}
    (hInv : StakingInv st) (h : applyOp st op = .ok (st', tr)) : StakingInv st' := by
  cases op with
  | stakeOp c a d n => exact stake_inv_preserved hInv h
  | unstakeOp c n => exact unstake_inv_preserved hInv h

theorem runOps_inv {ops : List Op} : ∀ {st st' : ProgramState},
    StakingInv st → runOps st ops = some st' → StakingInv st' := by
  induction ops with
  | nil =>
    intro st st' hInv h
    unfold runOps at h
    injection h with h'
    exact h' ▸ hInv
  | cons op rest ih =>
    intro st st' hInv h
    unfold runOps at h
    split at h
    · next st₁ tr heq => exact ih (applyOp_inv hInv heq) h
    · exact Option.noConfusion h

/-! ## Claim theorems -/

/-- C4 counterexample: the tier resolver does not return basis points.  For
`d = 365` the source returns 15 (percent), not 1500. -/
theorem calculate_apy_not_basis_points :
    calculate_apy 365 = 15 ∧ calculate_apy 365 ≠ 1500 := by decide

/-- C4 (amended): `calculate_apy` is total and pure, returns 15 (percent,
i.e. 1500 basis points in the spec) for `d ≥ 365`, 12 for `180 ≤ d < 365`,
8 for `90 ≤ d < 180`, and 5 otherwise; its result is always in
`{5, 8, 12, 15}` and it is monotone non-decreasing in `d`. -/
theorem calculate_apy_tiers (d e : Nat) (h : d ≤ e) :
    (365 ≤ d → calculate_apy d = 15) ∧
    (180 ≤ d → d < 365 → calculate_apy d = 12) ∧
    (90 ≤ d → d < 180 → calculate_apy d = 8) ∧
    (d < 90 → calculate_apy d = 5) ∧
    (calculate_apy d = 5 ∨ calculate_apy d = 8 ∨ calculate_apy d = 12 ∨
      calculate_apy d = 15) ∧
    calculate_apy d ≤ calculate_apy e := by
  unfold calculate_apy
  split_ifs <;> omega

/-- Witness for C4 at `d = 90`, `e = 400`. -/
theorem calculate_apy_tiers_witness :
    90 ≤ 400 ∧ calculate_apy 90 ≤ calculate_apy 400 ∧ calculate_apy 90 = 8 :=
  ⟨by decide, (calculate_apy_tiers 90 400 (by decide)).2.2.2.2.2,
    (calculate_apy_tiers 90 400 (by decide)).2.2.1 (by decide) (by decide)⟩

/-- C2 counterexample: the accrual engine divides the rate by 100 (percent),
not 10000 (basis points).  At principal 10000, rate parameter 500, one year
elapsed (all double-precision steps exact), the code yields 50000 while the
formula of the claim yields 500. -/
theorem calculate_rewards_not_basis_points :
    calculate_rewards 10000 500 0 31536000 0 = some 50000 ∧
    accrueSpec 10000 500 (31536000 - 0) = 500 ∧
    calculate_rewards 10000 500 0 31536000 0 ≠
      some (accrueSpec 10000 500 (31536000 - 0)) := by decide

/-- C2 (amended): with the elapsed time in `i64` range, the engine returns
`floor(p * r/100 * e / (365*86400))` (exact-arithmetic reading of the f64
intermediate, saturated at `u64::MAX`) minus the already-claimed amount,
floored at zero (never negative — the result type is `Nat`); it returns 0
whenever the elapsed time is `≤ 0`. -/
theorem calculate_rewards_formula (p r claimed : Nat) (s c : Int)
    (h1 : i64Min ≤ c - s) (h2 : c - s ≤ i64Max) :
    calculate_rewards p r s c claimed =
      some (accrueAmended p r (c - s) - claimed) ∧
    (accrueAmended p r (c - s) ≤ claimed →
      calculate_rewards p r s c claimed = some 0) ∧
    (c - s ≤ 0 → calculate_rewards p r s c claimed = some 0) := by
  have hmain : calculate_rewards p r s c claimed =
      some (accrueAmended p r (c - s) - claimed) := by
    unfold calculate_rewards checkedSubI64 accrueAmended
    rw [if_pos ⟨h1, h2⟩]
    by_cases hd : c - s ≤ 0
    · simp [hd]
    · simp only [hd, if_false]
      unfold checkedSubU64
      by_cases hcl : claimed ≤ min ((p * r * (c - s).toNat) / (100 * (365 * 86400))) u64Max
      · simp [hcl]
      · simp only [hcl, if_false]
        exact congrArg some (Nat.sub_eq_zero_of_le (le_of_not_le hcl)).symm
  refine ⟨hmain, ?_, ?_⟩
  · intro hle
    rw [hmain, Nat.sub_eq_zero_of_le hle]
  · intro hd
    rw [hmain]
    unfold accrueAmended
    rw [if_pos hd]
    simp

/-- Witness for C2 at `p = 10000`, `r = 500`, `s = 0`, `c = 31536000`,
`claimed = 7`. -/
theorem calculate_rewards_formula_witness :
    i64Min ≤ (31536000 : Int) - 0 ∧ (31536000 : Int) - 0 ≤ i64Max ∧
    calculate_rewards 10000 500 0 31536000 7 =
      some (accrueAmended 10000 500 (31536000 - 0) - 7) :=
  ⟨by decide, by decide,
    (calculate_rewards_formula 10000 500 7 0 31536000 (by decide) (by decide)).1⟩

/-- C7: `stake` with `amount = 0` fails with `InvalidAmount`; the `require!`
runs before the record is filled in, the deposit transfer is requested, or
the counters change, and the error result carries no state change and no
transfer request. -/
theorem stake_zero_amount (st : ProgramState) (caller : Pubkey) (days : Nat)
    (now : Int) (hfresh : lookupRecord st.records caller = none) :
    stake st caller 0 days now = .error (.program .InvalidAmount) := by
  simp only [stake, hfresh]
  rfl

/-- Witness for C7 from the freshly initialized state. -/
theorem stake_zero_amount_witness :
    lookupRecord (initState 9).records 1 = none ∧
    stake (initState 9) 1 0 5 0 = .error (.program .InvalidAmount) :=
  ⟨by decide, stake_zero_amount (initState 9) 1 5 0 (by decide)⟩

/-- Concrete state for C3: an active record whose `last_claimed_time`
(31536000) differs from `start_time` (0) because a claim has already paid
out 500. -/
def c3State : ProgramState :=
  { auth := { authority := 99, total_staked := 1001, staker_count := 1 }
    records := [(7, { owner := 7, deposit_amount := 1001, start_time := 0,
                      unlock_time := 63072000, apy := 50, rewards_claimed := 500,
                      last_claimed_time := 31536000, is_active := true })] }

/-- C3: `unstake` does NOT accrue from the last reward checkpoint of the record.
On `c3State` at `t = 63072000`, `unstake` pays a rewards transfer of 501 —
`calculate_rewards(deposit, apy, start_time, now, rewards_claimed)` — while
the claim path `calculate_rewards(deposit, apy, last_claimed_time, now, 0)`
computes 500 (every double-precision step is exact at these inputs). -/
theorem unstake_checkpoint_divergence :
    unstake c3State 7 63072000 =
      .ok ({ auth := { authority := 99, total_staked := 0, staker_count := 0 },
             records := [] },
           [⟨.stakingVault, .userToken 7, 1001⟩,
            ⟨.rewardsPool, .userToken 7, 501⟩]) ∧
    calculate_rewards 1001 50 0 63072000 500 = some 501 ∧
    calculate_rewards 1001 50 31536000 63072000 0 = some 500 ∧
    (501 : Nat) ≠ 500 :=
  ⟨rfl, by decide, by decide, by decide⟩

/-- C1: starting from the initialized state (`totalStaked = 0`,
`stakerCount = 0`), after any sequence of successful `stake`/`unstake`
operations, `totalStaked` equals the sum of `deposit_amount` over all
records with `is_active = true` and `stakerCount` equals their number; both
counters are updated within the single atomic operation that creates or
closes the record (each `runOps` step is one whole instruction). -/
theorem staking_conservation (admin : Pubkey) (ops : List Op)
    (st' : ProgramState) (h : runOps (initState admin) ops = some st') :
    st'.auth.total_staked = activeSum st'.records ∧
    st'.auth.staker_count = activeCount st'.records := by
  have h0 : StakingInv (initState admin) := by
    refine ⟨?_, rfl, rfl⟩
    simp [keysNodup, initState]
  exact (runOps_inv h0 h).2

/-- Final state of the C1 witness run: stake 100 for 365 days, stake 50 for
30 days (different depositor), then the first depositor unstakes at
maturity. -/
def c1WitnessState : ProgramState :=
  { auth := { authority := 9, total_staked := 50, staker_count := 1 }
    records := [(2, { owner := 2, deposit_amount := 50, start_time := 0,
                      unlock_time := 2592000, apy := 5, rewards_claimed := 0,
                      last_claimed_time := 0, is_active := true })] }

/-- Witness for C1 on a three-operation run. -/
theorem staking_conservation_witness :
    runOps (initState 9)
        [.stakeOp 1 100 365 0, .stakeOp 2 50 30 0, .unstakeOp 1 31536000] =
      some c1WitnessState ∧
    c1WitnessState.auth.total_staked = activeSum c1WitnessState.records ∧
    c1WitnessState.auth.staker_count = activeCount c1WitnessState.records :=
  ⟨by decide, staking_conservation 9
    [.stakeOp 1 100 365 0, .stakeOp 2 50 30 0, .unstakeOp 1 31536000]
    c1WitnessState (by decide)⟩

/-- C5: with an active record owned by the caller, an `unstake` before
`unlock_time` fails with `StakingPeriodNotEnded` when the caller is not the
admin authority (the error result carries no state change), while the same
call by the admin authority succeeds regardless of the current time.  The
range hypotheses keep the `i64` subtraction inside `calculate_rewards` from
overflowing (they hold for all real clock values). -/
theorem unstake_time_gate (st : ProgramState) (caller : Pubkey) (now : Int)
    (sa : StakeAccount)
    (hInv : StakingInv st)
    (hfind : st.records.find? (fun p => p.1 == caller) = some (caller, sa))
    (hown : sa.owner = caller) (hact : sa.is_active = true)
    (hd1 : i64Min ≤ now - sa.start_time) (hd2 : now - sa.start_time ≤ i64Max) :
    (now < sa.unlock_time → caller ≠ st.auth.authority →
      unstake st caller now = .error (.program .StakingPeriodNotEnded)) ∧
    (caller = st.auth.authority →
      ∃ st' tr, unstake st caller now = .ok (st', tr)) := by
  constructor
  · intro hlt hne
    have hgate : ¬(sa.unlock_time ≤ now ∨ st.auth.authority = caller) := by
      rintro (hle | heqa)
      · exact absurd hle (not_le.mpr hlt)
      · exact hne heqa.symm
    simp only [unstake, hfind]
    rw [if_pos ⟨hown, hact⟩, if_neg hgate]
  · intro heqa
    obtain ⟨r, hr⟩ := calculate_rewards_isSome sa.deposit_amount sa.apy
      sa.rewards_claimed sa.start_time now hd1 hd2
    obtain ⟨hsum, hcount⟩ := remove_found hInv.1 hfind
    rw [hact] at hsum hcount
    simp only [if_true] at hsum hcount
    have hdep : sa.deposit_amount ≤ st.auth.total_staked := by
      rw [hInv.2.1]; omega
    have hcnt : 1 ≤ st.auth.staker_count := by
      rw [hInv.2.2]; omega
    refine ⟨{ auth := { st.auth with
                  total_staked := st.auth.total_staked - sa.deposit_amount,
                  staker_count := st.auth.staker_count - 1 },
              records := st.records.filter (fun p => !(p.1 == caller)) },
            ⟨.stakingVault, .userToken caller, sa.deposit_amount⟩ ::
              (if 0 < r then [⟨.rewardsPool, .userToken caller, r⟩] else []),
            ?_⟩
    simp only [unstake, hfind]
    rw [if_pos ⟨hown, hact⟩, if_pos (Or.inr heqa.symm), hr]
    simp only [checkedSubU64, if_pos hdep, if_pos hcnt]

/-- The stake record of the C5 witness state. -/
def w5sa : StakeAccount :=
  { owner := 5, deposit_amount := 10, start_time := 0, unlock_time := 1000,
    apy := 5, rewards_claimed := 0, last_claimed_time := 0, is_active := true }

/-- C5 witness state: the admin authority (key 5) owns the only record. -/
def w5State : ProgramState :=
  { auth := { authority := 5, total_staked := 10, staker_count := 1 }
    records := [(5, w5sa)] }

/-- Witness for C5: the admin unstakes its own record at `t = 10`, long
before `unlock_time = 1000`. -/
theorem unstake_time_gate_witness :
    StakingInv w5State ∧ i64Min ≤ (10 : Int) - w5sa.start_time ∧
    ((5 : Pubkey) = w5State.auth.authority →
      ∃ st' tr, unstake w5State 5 10 = .ok (st', tr)) :=
  ⟨by decide, by decide,
    (unstake_time_gate w5State 5 10 w5sa (by decide) (by decide) rfl rfl
      (by decide) (by decide)).2⟩

/-- C10: a successful `unstake` always closes the record addressed by the
caller's own PDA, whose `owner` field equals the caller (Anchor seeds plus
the `owner` constraint); hence when it succeeds before `unlock_time` the
caller is the admin authority, so the early-release override can only apply
to a record owned by the admin itself. -/
theorem unstake_owner_only (st : ProgramState) (caller : Pubkey) (now : Int)
    {st' : ProgramState} {tr : List TransferReq}
    (h : unstake st caller now = .ok (st', tr)) :
    ∃ sa, lookupRecord st.records caller = some sa ∧ sa.owner = caller ∧
      (now < sa.unlock_time → caller = st.auth.authority) := by
  obtain ⟨q, r, hfind, hown, hact, hgate, _⟩ := unstake_ok_inv h
  refine ⟨q.2, ?_, hown, ?_⟩
  · unfold lookupRecord
    rw [hfind]
    rfl
  · intro hlt
    rcases hgate with hle | heqa
    · exact absurd hle (not_le.mpr hlt)
    · exact heqa.symm

/-- C10 witness state: identical shape to the C5 state, separate run. -/
def w10State : ProgramState :=
  { auth := { authority := 5, total_staked := 10, staker_count := 1 }
    records := [(5, { owner := 5, deposit_amount := 10, start_time := 0,
                      unlock_time := 1000, apy := 5, rewards_claimed := 0,
                      last_claimed_time := 0, is_active := true })] }

/-- Witness for C10: an early `unstake` (t = 10 < 1000) that succeeds; the
theorem forces the record owner to be the caller and the caller to be the
admin. -/
theorem unstake_owner_only_witness :
    unstake w10State 5 10 =
      .ok ({ auth := { authority := 5, total_staked := 0, staker_count := 0 },
             records := [] },
           [⟨.stakingVault, .userToken 5, 10⟩]) ∧
    ∃ sa, lookupRecord w10State.records 5 = some sa ∧ sa.owner = 5 ∧
      ((10 : Int) < sa.unlock_time → (5 : Pubkey) = w10State.auth.authority) :=
  ⟨rfl, unstake_owner_only w10State 5 10 rfl⟩

/-- C8: counter updates use checked arithmetic.  A successful `stake`
changed the counters by exactly `amount` and 1 with the results proven in
`u64` range (no wrap, no saturation); if the addition would overflow the
whole operation aborts (`stake` can then never return `ok`); and under the
conservation invariant the underflow branch of the
`checked_sub(..).unwrap()` calls in `unstake` is unreachable: both subtractions succeed
for any active record found by the caller. -/
theorem checked_counter_updates (st : ProgramState) (caller : Pubkey)
    (amount days : Nat) (now : Int) (sa : StakeAccount)
    (hInv : StakingInv st) :
    (∀ st' tr, stake st caller amount days now = .ok (st', tr) →
      st'.auth.total_staked = st.auth.total_staked + amount ∧
      st.auth.total_staked + amount ≤ u64Max ∧
      st'.auth.staker_count = st.auth.staker_count + 1 ∧
      st.auth.staker_count + 1 ≤ u64Max) ∧
    (u64Max < st.auth.total_staked + amount →
      ∀ st' tr, stake st caller amount days now ≠ .ok (st', tr)) ∧
    (st.records.find? (fun p => p.1 == caller) = some (caller, sa) →
      sa.is_active = true →
      checkedSubU64 st.auth.total_staked sa.deposit_amount =
        some (st.auth.total_staked - sa.deposit_amount) ∧
      checkedSubU64 st.auth.staker_count 1 =
        some (st.auth.staker_count - 1)) := by
  refine ⟨?_, ?_, ?_⟩
  · intro st' tr h
    obtain ⟨_, _, h3, h4, _, h6, h7, _, _⟩ := stake_ok_inv h
    exact ⟨h6, h3, h7, h4⟩
  · intro hover st' tr h
    obtain ⟨_, _, h3, _⟩ := stake_ok_inv h
    omega
  · intro hfind hact
    obtain ⟨hsum, hcount⟩ := remove_found hInv.1 hfind
    rw [hact] at hsum hcount
    simp only [if_true] at hsum hcount
    unfold checkedSubU64
    constructor
    · rw [if_pos (by rw [hInv.2.1]; omega)]
    · rw [if_pos (by rw [hInv.2.2]; omega)]

/-- The stake record of the C8 witness state. -/
def w8sa : StakeAccount :=
  { owner := 1, deposit_amount := 7, start_time := 0, unlock_time := 100,
    apy := 5, rewards_claimed := 0, last_claimed_time := 0, is_active := true }

/-- C8 witness state: one active record of 7 tokens. -/
def w8State : ProgramState :=
  { auth := { authority := 9, total_staked := 7, staker_count := 1 }
    records := [(1, w8sa)] }

/-- Witness for C8: under the invariant the two `unstake` subtractions
succeed on the concrete state. -/
theorem checked_counter_updates_witness :
    StakingInv w8State ∧
    checkedSubU64 w8State.auth.total_staked w8sa.deposit_amount =
      some (w8State.auth.total_staked - w8sa.deposit_amount) ∧
    checkedSubU64 w8State.auth.staker_count 1 =
      some (w8State.auth.staker_count - 1) :=
  ⟨by decide,
    ((checked_counter_updates w8State 1 5 30 0 w8sa (by decide)).2.2
      (by decide) rfl).1,
    ((checked_counter_updates w8State 1 5 30 0 w8sa (by decide)).2.2
      (by decide) rfl).2⟩

theorem find?_map_keyed {l : List (Pubkey × StakeAccount)} {c : Pubkey}
    (f : Pubkey × StakeAccount → Pubkey × StakeAccount)
    (hf : ∀ p, (f p).1 = p.1) :
    (l.map f).find? (fun p => p.1 == c) =
      (l.find? (fun p => p.1 == c)).map f := by
  induction l with
  | nil => rfl
  | cons p l ih =>
    by_cases hpc : p.1 = c
    · simp [List.find?_cons, hf, hpc]
    · simp [List.find?_cons, hf, hpc, ih]

theorem calculate_rewards_self (a apy cl : Nat) (t : Int) :
    calculate_rewards a apy t t cl = some 0 := by
  unfold calculate_rewards checkedSubI64
  rw [sub_self]
  rw [if_pos ⟨by norm_num [i64Min], by norm_num [i64Max]⟩]
  simp

/-- C6: for an active record owned by the caller, `claim_rewards` fails with
`NoRewardsAvailable` when the accrued reward is zero (the error carries no
state change and no transfer); otherwise it transfers exactly the reward
from the rewards pool, adds it to `rewards_claimed`, sets
`last_claimed_time := now` and leaves the record active; consequently a
second claim at the same instant fails with `NoRewardsAvailable`. -/
theorem claim_rewards_behavior (st : ProgramState) (caller : Pubkey)
    (now : Int) (sa : StakeAccount) (r : Nat)
    (hfind : st.records.find? (fun p => p.1 == caller) = some (caller, sa))
    (hown : sa.owner = caller) (hact : sa.is_active = true)
    (hr : calculate_rewards sa.deposit_amount sa.apy sa.last_claimed_time now 0 =
      some r) :
    (r = 0 →
      claim_rewards st caller now = .error (.program .NoRewardsAvailable)) ∧
    (0 < r → sa.rewards_claimed + r ≤ u64Max →
      claim_rewards st caller now = .ok
        ({ st with records := st.records.map (fun p =>
            if p.1 = caller then
              (p.1, { p.2 with rewards_claimed := sa.rewards_claimed + r,
                               last_claimed_time := now })
            else p) },
         [⟨.rewardsPool, .userToken caller, r⟩])) ∧
    (∀ st' tr, claim_rewards st caller now = .ok (st', tr) →
      claim_rewards st' caller now = .error (.program .NoRewardsAvailable)) := by
  refine ⟨?_, ?_, ?_⟩
  · intro hr0
    subst hr0
    simp only [claim_rewards, hfind]
    rw [if_pos hown, if_pos hact, hr]
    rfl
  · intro hrpos hle
    simp only [claim_rewards, hfind]
    rw [if_pos hown, if_pos hact, hr]
    simp only [if_pos hrpos, checkedAddU64, if_pos hle]
  · intro st' tr h
    obtain ⟨q, r', rc, hfind', hown', hact', hr', hrpos', hrc', hauth', hrecs',
      htr'⟩ := claim_ok_inv h
    have hq : q = (caller, sa) := by
      rw [hfind'] at hfind
      exact Option.some.injEq _ _ ▸ hfind
    subst hq
    have hf : ∀ p : Pubkey × StakeAccount,
        ((fun p => if p.1 = caller then
            (p.1, { p.2 with rewards_claimed := rc, last_claimed_time := now })
          else p) p).1 = p.1 := by
      intro p
      by_cases hp : p.1 = caller <;> simp [hp]
    have hfind'' : st'.records.find? (fun p => p.1 == caller) =
        some (caller, { sa with rewards_claimed := rc,
                                last_claimed_time := now }) := by
      rw [hrecs', find?_map_keyed _ hf, hfind']
      simp
    simp only [claim_rewards, hfind'']
    rw [if_pos hown', if_pos hact', calculate_rewards_self]
    rfl

/-- The stake record of the C6 witness state. -/
def w6sa : StakeAccount :=
  { owner := 7, deposit_amount := 1000, start_time := 0,
    unlock_time := 31536000, apy := 15, rewards_claimed := 0,
    last_claimed_time := 0, is_active := true }

/-- C6 witness state: 1000 staked at 15 for one year. -/
def w6State : ProgramState :=
  { auth := { authority := 9, total_staked := 1000, staker_count := 1 }
    records := [(7, w6sa)] }

/-- Witness for C6: claiming after one year pays 150, advances the record,
and leaves it active. -/
theorem claim_rewards_behavior_witness :
    claim_rewards w6State 7 31536000 =
      .ok ({ auth := { authority := 9, total_staked := 1000, staker_count := 1 },
             records := [(7, { owner := 7, deposit_amount := 1000,
                               start_time := 0, unlock_time := 31536000,
                               apy := 15, rewards_claimed := 150,
                               last_claimed_time := 31536000,
                               is_active := true })] },
           [⟨.rewardsPool, .userToken 7, 150⟩]) :=
  (claim_rewards_behavior w6State 7 31536000 w6sa 150 rfl rfl rfl
    (by decide)).2.1 (by decide) (by decide)

/-- C9: a successful `claim_rewards` leaves the `StakingAuthority` aggregate
untouched, and of the caller's record only `rewards_claimed` and
`last_claimed_time` change: every record keeps its key, `owner`,
`deposit_amount`, `start_time`, `unlock_time`, frozen `apy` and `is_active`,
and records of other owners are completely unchanged. -/
theorem claim_rewards_frame (st : ProgramState) (caller : Pubkey) (now : Int)
    {st' : ProgramState} {tr : List TransferReq}
    (h : claim_rewards st caller now = .ok (st', tr)) :
    st'.auth = st.auth ∧
    (∃ rc, st'.records = st.records.map (fun p =>
        if p.1 = caller then
          (p.1, { p.2 with rewards_claimed := rc, last_claimed_time := now })
        else p)) ∧
    ∀ p ∈ st.records, ∃ q ∈ st'.records, q.1 = p.1 ∧
      q.2.owner = p.2.owner ∧ q.2.deposit_amount = p.2.deposit_amount ∧
      q.2.start_time = p.2.start_time ∧ q.2.unlock_time = p.2.unlock_time ∧
      q.2.apy = p.2.apy ∧ q.2.is_active = p.2.is_active ∧
      (p.1 ≠ caller → q.2 = p.2) := by
  obtain ⟨q, r, rc, hfind, hown, hact, hr, hrpos, hrc, hauth, hrecs, htr⟩ :=
    claim_ok_inv h
  refine ⟨hauth, ⟨rc, hrecs⟩, ?_⟩
  intro p hp
  have hmem := List.mem_map_of_mem (fun p =>
    if p.1 = caller then
      (p.1, { p.2 with rewards_claimed := rc, last_claimed_time := now })
    else p) hp
  rw [← hrecs] at hmem
  by_cases hpc : p.1 = caller
  · refine ⟨(p.1, { p.2 with rewards_claimed := rc, last_claimed_time := now }),
      ?_, rfl, rfl, rfl, rfl, rfl, rfl, rfl, ?_⟩
    · simpa [hpc] using hmem
    · intro hne
      exact absurd hpc hne
  · refine ⟨p, ?_, rfl, rfl, rfl, rfl, rfl, rfl, rfl, fun _ => rfl⟩
    simpa [hpc] using hmem

/-- The stake record of the C9 witness state. -/
def w9sa : StakeAccount :=
  { owner := 3, deposit_amount := 2000, start_time := 0,
    unlock_time := 31536000, apy := 15, rewards_claimed := 0,
    last_claimed_time := 0, is_active := true }

/-- C9 witness state. -/
def w9State : ProgramState :=
  { auth := { authority := 9, total_staked := 2000, staker_count := 1 }
    records := [(3, w9sa)] }

/-- Witness for C9: the aggregate is unchanged by the concrete claim. -/
theorem claim_rewards_frame_witness :
    claim_rewards w9State 3 31536000 =
      .ok ({ auth := { authority := 9, total_staked := 2000, staker_count := 1 },
             records := [(3, { owner := 3, deposit_amount := 2000,
                               start_time := 0, unlock_time := 31536000,
                               apy := 15, rewards_claimed := 300,
                               last_claimed_time := 31536000,
                               is_active := true })] },
           [⟨.rewardsPool, .userToken 3, 300⟩]) ∧
    ({ auth := { authority := 9, total_staked := 2000, staker_count := 1 },
       records := [(3, { owner := 3, deposit_amount := 2000, start_time := 0,
                         unlock_time := 31536000, apy := 15,
                         rewards_claimed := 300,
                         last_claimed_time := 31536000,
                         is_active := true })] } : ProgramState).auth =
      w9State.auth :=
  ⟨rfl, (claim_rewards_frame w9State 3 31536000 rfl).1⟩
